import Mathlib

/-!
# ChatSphere reconciliation core — shallow embedding and verification

This file embeds the client-side reconciliation core of the ChatSphere
chat application (frontend/src/pages/Chat.jsx, frontend/src/components/
ChatWindow.jsx, and the socket module) as pure Lean functions over
explicit state, and proves or refutes the specified properties of the
merge, subscription, typing and projection logic.

Conventions: JavaScript strings are `String`, timestamps are `Nat`
(milliseconds), optional JS values are `Option`, and the asynchronous
completion of a fetch is modelled as a separate state-transition
function applied to the completion's payload (`Except` for
success/failure). React `useState` updates are modelled as field
updates of an explicit record; signal emissions (`socket.emit`) are
accumulated in trace lists.
-/

namespace ChatSphere

/-- A chat message as delivered by the REST API and by the `new_message`
push event (fields used by the client: `_id`, `chat_id`, `sender_id`,
`content`, `created_at`). -/
structure Message where
  _id : String
  chat_id : String
  sender_id : String
  content : String
  created_at : Nat
deriving DecidableEq, Repr

/-- A conversation summary as held in the sidebar list. The preview and
activity fields start absent and are written by the projection on
`new_message` (Chat.jsx lines 58–68). -/
structure Chat where
  _id : String
  name : String
  last_message_preview : Option String
  last_message_at : Option Nat
deriving DecidableEq, Repr

/-- The state owned by the `Chat` page component (Chat.jsx `useState`
hooks): the conversation list, the current selection, the displayed
message list, and the list-loading flag. -/
structure ClientState where
  chats : List Chat
  selectedChat : Option Chat
  messages : List Message
  loadingChats : Bool
deriving DecidableEq, Repr

/-- The initial component state: `useState([])`, `useState(null)`,
`useState([])`, `useState(true)`. -/
def initClientState : ClientState :=
  { chats := [], selectedChat := none, messages := [], loadingChats := true }

/-- The `new_message` push handler (Chat.jsx lines 52–69): if a chat is
selected and the message belongs to it, append the message to the
displayed list (unconditionally — the code has no duplicate-id check);
and, independently of the selection, map over the chat list setting the
matching chat's `last_message_preview` to `msg.content.slice(0, 60)` and
its `last_message_at` to `msg.created_at`. -/
def handleNewMessage (s : ClientState) (msg : Message) : ClientState :=
  { s with
    messages :=
      match s.selectedChat with
      | some sel => if msg.chat_id = sel._id then s.messages ++ [msg] else s.messages
      | none => s.messages,
    chats := s.chats.map (fun c =>
      if c._id = msg.chat_id then
        { c with
          last_message_preview := some (msg.content.take 60),
          last_message_at := some msg.created_at }
      else c) }

/-- Completion of `fetchMessages(chatId)` (Chat.jsx lines 29–36). On
success the handler runs `setMessages(res.data.messages || [])`; the
`chatId` the request was issued for is not consulted at completion time
(there is no staleness guard in the code). On failure the `catch` block
only logs, leaving the state unchanged. -/
def fetchMessagesComplete (s : ClientState) (chatId : String)
    (res : Except String (Option (List Message))) : ClientState :=
  match res with
  | Except.ok msgs => { s with messages := msgs.getD [] }
  | Except.error _ => s

/-- Completion of `fetchChats()` (Chat.jsx lines 17–26): on success
`setChats(res.data.chats || [])`; on failure only a log; `finally`
clears the loading flag in both cases. -/
def fetchChatsComplete (s : ClientState)
    (res : Except String (Option (List Chat))) : ClientState :=
  match res with
  | Except.ok cs => { s with chats := cs.getD [], loadingChats := false }
  | Except.error _ => { s with loadingChats := false }

/-- `handleSelectChat` (Chat.jsx lines 88–91): set the selection and
clear the displayed message list. -/
def handleSelectChat (s : ClientState) (c : Chat) : ClientState :=
  { s with selectedChat := some c, messages := [] }

/-- `handleChatCreated` (Chat.jsx lines 93–96): prepend the new chat to
the list and select it. Note: unlike `handleSelectChat`, the message
list is not cleared here. -/
def handleChatCreated (s : ClientState) (c : Chat) : ClientState :=
  { s with chats := c :: s.chats, selectedChat := some c }

/-! ## Room subscription (Chat.jsx lines 76–86)

The effect with dependency `[selectedChat]` emits `join_chat` for the
new selection and, in its cleanup — which React runs *before* the next
effect body — `leave_chat` for the previous one. We model the effect
cycle per selection change as one step appending to a signal trace;
re-selecting the identical value does not re-run the effect. -/

/-- A client-to-server room signal. -/
inductive RoomSig where
  | join (chat_id : String)
  | leave (chat_id : String)
deriving DecidableEq, Repr

/-- Subscription-side state: the currently joined room (the chat id the
running effect holds) and the cumulative emission trace. -/
structure SubState where
  joined : Option String
  sigs : List RoomSig
deriving DecidableEq, Repr

/-- One selection change as seen by the join/leave effect: when the
selection actually changes, the previous effect's cleanup emits
`leave_chat{old}` and the new effect body emits `join_chat{id}`, in
that order. -/
def selectRoom (s : SubState) (id : String) : SubState :=
  if s.joined = some id then s
  else
    match s.joined with
    | some old =>
        { joined := some id, sigs := s.sigs ++ [RoomSig.leave old, RoomSig.join id] }
    | none =>
        { joined := some id, sigs := s.sigs ++ [RoomSig.join id] }

/-- Run a sequence of selection changes from a given state. -/
def runSelects (s : SubState) : List String → SubState
  | [] => s
  | id :: ids => runSelects (selectRoom s id) ids

/-- How one signal changes the set of rooms the server considers this
client joined to: `join_chat` adds the room, `leave_chat` removes it. -/
def roomStep (acc : List String) (sig : RoomSig) : List String :=
  match sig with
  | RoomSig.join id => if id ∈ acc then acc else acc ++ [id]
  | RoomSig.leave id => acc.filter (fun r => r ≠ id)

/-- The set of rooms this client is joined to after a signal trace,
starting from no rooms. -/
def roomsAfter (sigs : List RoomSig) : List String :=
  sigs.foldl roomStep []

/-- Checks that a trace alternates correctly given the room joined
before it: from the unjoined state the trace may open with a `join`,
and from a joined state every further `join` is immediately preceded by
the `leave` of the previously joined room. -/
def leaveBeforeJoin : Option String → List RoomSig → Bool
  | _, [] => true
  | none, RoomSig.join id :: rest => leaveBeforeJoin (some id) rest
  | some old, RoomSig.leave l :: RoomSig.join j :: rest =>
      l = old && leaveBeforeJoin (some j) rest
  | _, _ => false

/-! ## Typing tracker, local half (ChatWindow.jsx lines 44–54)

`handleTyping` emits `typing_start{chat._id}`, clears any pending
timeout and arms a fresh 2000 ms timeout whose callback emits
`typing_stop{chat._id}` (the chat id captured when the timer was
armed). Chat switches (`chat` prop changes) run no code that touches
the timer: the only chat-change effect is `setTypingUsers([])`
(lines 40–42). We model virtual time as `Nat` milliseconds. -/

/-- A client-to-server typing signal. -/
inductive TypSig where
  | start (chat_id : String)
  | stop (chat_id : String)
deriving DecidableEq, Repr

/-- Local typing state of `ChatWindow`: the displayed chat (the `chat`
prop's id), `typingTimeoutRef` as an optional (fire time, captured chat
id) pair, and the timestamped emission trace. -/
structure TypingLocal where
  chat : Option String
  timer : Option (Nat × String)
  sigs : List (Nat × TypSig)
deriving DecidableEq, Repr

/-- The idle window of the typing debounce: `setTimeout(..., 2000)`. -/
def typingIdleMs : Nat := 2000

/-- `handleTyping` called at time `now` (a local content-change): if no
chat is displayed it returns early; otherwise it emits
`typing_start{chat._id}` and (re)arms the single timeout for
`now + 2000`, capturing the current chat id. -/
def handleTypingInput (now : Nat) (s : TypingLocal) : TypingLocal :=
  match s.chat with
  | none => s
  | some cid =>
      { s with
        timer := some (now + typingIdleMs, cid),
        sigs := s.sigs ++ [(now, TypSig.start cid)] }

/-- The event loop firing the pending timeout at time `now` when due:
the callback emits `typing_stop` for the chat id captured at arm time
and the timeout is spent. -/
def fireDueTimer (now : Nat) (s : TypingLocal) : TypingLocal :=
  match s.timer with
  | some (ft, cid) =>
      if ft ≤ now then
        { s with timer := none, sigs := s.sigs ++ [(ft, TypSig.stop cid)] }
      else s
  | none => s

/-- A run of local content-changes at the given times, the event loop
firing any due timeout before each one. -/
def runTypingInputs (s : TypingLocal) : List Nat → TypingLocal
  | [] => s
  | t :: ts => runTypingInputs (handleTypingInput t (fireDueTimer t s)) ts

/-- Let the remaining pending timeout (if any) fire, with no further
input: the callback emits `typing_stop` for the captured chat id at the
armed fire time. -/
def flushTimer (s : TypingLocal) : TypingLocal :=
  match s.timer with
  | some (ft, cid) =>
      { s with timer := none, sigs := s.sigs ++ [(ft, TypSig.stop cid)] }
  | none => s

/-- The `chat` prop changing to `c` (a selection switch as seen by
`ChatWindow`): the code runs no handler that touches the typing timer
or emits a signal — the only `[chat]` effect resets the remote typing
list (modelled separately). -/
def switchChat (s : TypingLocal) (c : Option String) : TypingLocal :=
  { s with chat := c }

/-! ## Typing tracker, remote half (ChatWindow.jsx lines 19–42) -/

/-- Payload of a `user_typing` server push. -/
structure TypingEventData where
  chat_id : String
  user_id : String
  is_typing : Bool
deriving DecidableEq, Repr

/-- The `user_typing` handler's update of `typingUsers` (lines 23–33):
events for a different chat or from the current user are ignored;
`is_typing` adds the user unless already present; otherwise the user is
filtered out. `selfId` is `currentUser?._id`. -/
def handleUserTyping (chatId : String) (selfId : Option String)
    (prev : List String) (d : TypingEventData) : List String :=
  if d.chat_id ≠ chatId then prev
  else if some d.user_id = selfId then prev
  else if d.is_typing then
    (if d.user_id ∈ prev then prev else prev ++ [d.user_id])
  else
    prev.filter (fun id => id ≠ d.user_id)

/-- The `[chat]` effect (lines 40–42): on every chat change the remote
typing list is reset to `[]`. -/
def resetTypingOnChatChange : List String := []

/-! ## Socket module (socket.js: connectSocket / disconnectSocket)

A module-level mutable `socket` reference. `connectSocket(token)`
returns the existing handle if one exists, otherwise constructs a new
handle authenticated with `token`; `disconnectSocket()` calls
`socket.disconnect()` and nulls the reference when one exists,
otherwise does nothing. Observable side effects (the `disconnect()`
call on the live handle) are logged in a trace. -/

/-- The live socket handle, carrying the auth credential it was opened
with (`io(SOCKET_URL, { auth: { token } , ... })`). -/
structure SocketConn where
  authToken : String
deriving DecidableEq, Repr

/-- An observable action on a socket handle. -/
inductive SockAction where
  | teardown (c : SocketConn)
deriving DecidableEq, Repr

/-- Module-level socket state: the `socket` reference (possibly null)
and the trace of teardown actions performed. -/
structure SocketState where
  socket : Option SocketConn
  actions : List SockAction
deriving DecidableEq, Repr

/-- `connectSocket(token)` (socket.js lines 7–32): if `socket` is
non-null, return it unchanged; otherwise create a handle authenticated
with `token`, store it, and return it. -/
def connectSocket (token : String) (s : SocketState) : SocketState × SocketConn :=
  match s.socket with
  | some sk => (s, sk)
  | none =>
      let sk : SocketConn := { authToken := token }
      ({ s with socket := some sk }, sk)

/-- `disconnectSocket()` (socket.js lines 36–41): if `socket` is
non-null, call `socket.disconnect()` and null the reference; otherwise
do nothing. -/
def disconnectSocket (s : SocketState) : SocketState :=
  match s.socket with
  | some sk =>
      { socket := none, actions := s.actions ++ [SockAction.teardown sk] }
  | none => s

/-! ## Concrete fixtures (used by counterexamples and witnesses) -/

/-- A sample message in conversation `c1`. -/
def msgM1 : Message :=
  { _id := "m1", chat_id := "c1", sender_id := "u1", content := "hi", created_at := 10 }

/-- A second sample message in conversation `c1`. -/
def msgM2 : Message :=
  { _id := "m2", chat_id := "c1", sender_id := "u2", content := "yo", created_at := 20 }

/-- Sample conversation `c1`. -/
def chatC1 : Chat :=
  { _id := "c1", name := "Alpha", last_message_preview := none, last_message_at := none }

/-- Sample conversation `c2`. -/
def chatC2 : Chat :=
  { _id := "c2", name := "Beta", last_message_preview := none, last_message_at := none }

/-- A state reached by the ordinary flow: mount, chat-list fetch
returning `[chatC1]`, selection of `chatC1`, and its history fetch
returning `[msgM1]`. The displayed list already contains the message
with id `m1`. -/
def dupTestState : ClientState :=
  fetchMessagesComplete
    (handleSelectChat
      (fetchChatsComplete initClientState (Except.ok (some [chatC1]))) chatC1)
    "c1" (Except.ok (some [msgM1]))

/-- A state in which selection has moved from `chatC1` to `chatC2`
while `chatC1`'s history fetch is still in flight. -/
def staleTestState : ClientState :=
  handleSelectChat (handleSelectChat initClientState chatC1) chatC2

/-- A state reached by: list fetch, select `chatC1`, history fetch
`[msgM1]`, then creation of `chatC2` (which selects it without
clearing the list), then failure of `chatC2`'s history fetch. -/
def createFailState : ClientState :=
  fetchMessagesComplete
    (handleChatCreated dupTestState chatC2)
    "c2" (Except.error "Network Error")

/-! ## Claim C1 — push-message merge -/

/-- Claim C1, counterexample: in a reachable state whose displayed list
already contains the message with id `m1`, handling an inbound push of
that same message does *not* leave the list unchanged — the handler has
no duplicate-id check and appends a second copy. -/
theorem handleNewMessage_duplicate_changes_list :
    dupTestState.selectedChat = some chatC1 ∧
    dupTestState.messages = [msgM1] ∧
    (handleNewMessage dupTestState msgM1).messages = [msgM1, msgM1] ∧
    (handleNewMessage dupTestState msgM1).messages ≠ dupTestState.messages := by
  refine ⟨rfl, rfl, rfl, ?_⟩
  decide

/-- Claim C1 as amended: on an inbound push message whose conversation
id equals the current selection, the handler appends the message at the
end of the displayed list unconditionally — even when a message with
the same identifier is already present; a push for a different
conversation (or with nothing selected) leaves the list unchanged. -/
theorem handleNewMessage_always_appends (s : ClientState) (msg : Message) :
    (∀ sel, s.selectedChat = some sel → msg.chat_id = sel._id →
      (handleNewMessage s msg).messages = s.messages ++ [msg]) ∧
    (∀ sel, s.selectedChat = some sel → msg.chat_id ≠ sel._id →
      (handleNewMessage s msg).messages = s.messages) ∧
    (s.selectedChat = none → (handleNewMessage s msg).messages = s.messages) := by
  refine ⟨?_, ?_, ?_⟩ <;> intro h
  · intro hsel heq
    simp [handleNewMessage, hsel, heq]
  · intro hsel hne
    simp [handleNewMessage, hsel, hne]
  · simp [handleNewMessage, h]

/-- Witness for the amended C1 at a concrete reachable state. -/
theorem handleNewMessage_always_appends_witness :
    (handleNewMessage dupTestState msgM1).messages = dupTestState.messages ++ [msgM1] :=
  (handleNewMessage_always_appends dupTestState msgM1).1 chatC1 (by decide) (by decide)

/-! ## Claim C2 — stale-fetch handling -/

/-- Claim C2, counterexample: with the selection moved from `chatC1` to
`chatC2` before `chatC1`'s history fetch resolved, applying `chatC1`'s
fetch completion *does* alter the displayed (`chatC2`-scoped) list: the
completion handler has no staleness guard and overwrites the list with
the stale result. -/
theorem staleFetch_overwrites :
    staleTestState.selectedChat = some chatC2 ∧
    staleTestState.messages = [] ∧
    (fetchMessagesComplete staleTestState "c1" (Except.ok (some [msgM1]))).messages
      = [msgM1] ∧
    (fetchMessagesComplete staleTestState "c1" (Except.ok (some [msgM1]))).messages
      ≠ staleTestState.messages := by
  refine ⟨rfl, rfl, rfl, ?_⟩
  decide

/-- Claim C2 as amended: a history-fetch completion replaces the
displayed message list with its result unconditionally — the chat id
the request was issued for is not compared against the current
selection, so a stale result does overwrite a newer selection's list
(the selection itself is untouched). -/
theorem fetchMessagesComplete_unconditional (s : ClientState) (chatId : String)
    (msgs : List Message) :
    (fetchMessagesComplete s chatId (Except.ok (some msgs))).messages = msgs ∧
    (fetchMessagesComplete s chatId (Except.ok (some msgs))).selectedChat
      = s.selectedChat ∧
    (fetchMessagesComplete s chatId (Except.ok none)).messages = [] := by
  refine ⟨rfl, rfl, rfl⟩

/-! ## Claim C6 — selection-independent list projection -/

/-- Claim C6 (confirmed): handling an inbound push message maps the
conversation list position-by-position — preserving its length and
order — setting the matching conversation's preview to the content
truncated to 60 characters and its activity timestamp to the message's
creation timestamp, and leaving every other conversation unchanged; the
resulting list does not depend on which conversation is selected. -/
theorem handleNewMessage_projects_list (s : ClientState) (msg : Message)
    (sel : Option Chat) :
    ((handleNewMessage s msg).chats).length = s.chats.length ∧
    (handleNewMessage { s with selectedChat := sel } msg).chats
      = (handleNewMessage s msg).chats ∧
    (∀ (i : Nat) (c : Chat), s.chats[i]? = some c →
      ((handleNewMessage s msg).chats)[i]? =
        some (if c._id = msg.chat_id then
          { c with
            last_message_preview := some (msg.content.take 60),
            last_message_at := some msg.created_at }
          else c)) := by
  refine ⟨by simp [handleNewMessage], by simp [handleNewMessage], ?_⟩
  intro i c hc
  simp only [handleNewMessage, List.getElem?_map, hc, Option.map_some']

/-- Witness for C6 at a concrete input: a push for `c1` while `c2` is
selected still updates `c1`'s summary entry. -/
theorem handleNewMessage_projects_list_witness :
    ((handleNewMessage
        { chats := [chatC1, chatC2], selectedChat := some chatC2,
          messages := [], loadingChats := false } msgM2).chats)[0]? =
      some { chatC1 with
              last_message_preview := some (msgM2.content.take 60),
              last_message_at := some msgM2.created_at } := by
  have h := (handleNewMessage_projects_list
    { chats := [chatC1, chatC2], selectedChat := some chatC2,
      messages := [], loadingChats := false } msgM2 none).2.2 0 chatC1 rfl
  rwa [if_pos (show chatC1._id = msgM2.chat_id from rfl)] at h

/-! ## Claim C7 — connect idempotence -/

/-- Claim C7 (confirmed): when a socket handle already exists,
`connectSocket` returns it and leaves the whole module state — in
particular the credential stored in the live handle — unchanged, for
any credential argument; only when no handle exists does it open a new
one authenticated with the supplied credential. -/
theorem connectSocket_idempotent (token : String) (s : SocketState) :
    (∀ c, s.socket = some c → connectSocket token s = (s, c)) ∧
    (s.socket = none →
      connectSocket token s =
        ({ s with socket := some { authToken := token } },
          { authToken := token })) := by
  constructor
  · intro c hc
    simp [connectSocket, hc]
  · intro hn
    simp [connectSocket, hn]

/-- Witness for C7: connecting with a fresh credential `"t2"` while a
handle opened with `"t1"` is live returns the existing handle and keeps
the stored credential `"t1"`. -/
theorem connectSocket_idempotent_witness :
    connectSocket "t2" { socket := some { authToken := "t1" }, actions := [] }
      = ({ socket := some { authToken := "t1" }, actions := [] },
          { authToken := "t1" }) :=
  (connectSocket_idempotent "t2"
    { socket := some { authToken := "t1" }, actions := [] }).1
    { authToken := "t1" } rfl

/-! ## Claim C8 — idempotent teardown -/

/-- Claim C8 (confirmed): `disconnectSocket` always leaves the module
in the disconnected state; running it twice equals running it once
(both in resulting state and in the performed teardown actions); and on
an already-disconnected state it is a no-op. -/
theorem disconnectSocket_idempotent (s : SocketState) :
    (disconnectSocket s).socket = none ∧
    disconnectSocket (disconnectSocket s) = disconnectSocket s ∧
    (∀ acts, disconnectSocket { socket := none, actions := acts }
      = { socket := none, actions := acts }) := by
  refine ⟨?_, ?_, fun acts => rfl⟩
  · cases h : s.socket <;> simp [disconnectSocket, h]
  · cases h : s.socket <;> simp [disconnectSocket, h]

/-! ## Claim C9 — fetch-error degradation -/

/-- Claim C9, counterexample: in a reachable state — `chatC1` selected
with its messages displayed, then `chatC2` created and selected (which
does not clear the list), then `chatC2`'s history fetch failing — the
failing fetch leaves the *previous* conversation's messages displayed:
the affected view does not degrade to an empty result. -/
theorem fetchError_view_not_empty :
    createFailState.selectedChat = some chatC2 ∧
    createFailState.messages = [msgM1] ∧
    createFailState.messages ≠ [] := by
  refine ⟨rfl, rfl, ?_⟩
  decide

/-- Claim C9 as amended: a failing fetch is absorbed (the completion
handler is total and only logs): a failing history fetch leaves the
state exactly unchanged and a failing list fetch changes only the
loading flag — neither sets its list to empty. The view is empty after
a failure only where the list was already empty beforehand: the
mount-time list fetch (the list starts empty) and a history fetch
issued by a plain selection (which clears the list first). -/
theorem fetchError_absorbed (s : ClientState) (chatId e : String) (c : Chat) :
    fetchMessagesComplete s chatId (Except.error e) = s ∧
    fetchChatsComplete s (Except.error e) = { s with loadingChats := false } ∧
    (fetchChatsComplete initClientState (Except.error e)).chats = [] ∧
    (fetchMessagesComplete (handleSelectChat s c) chatId (Except.error e)).messages
      = [] := by
  refine ⟨rfl, rfl, rfl, rfl⟩

/-! ## Claim C4 — typing timer across a selection switch -/

/-- A state in which a content-change happened at time 0 in chat `c1`
(arming the idle timer) and the selection then switched to `c2`. -/
def switchAwayState : TypingLocal :=
  switchChat (handleTypingInput 0 { chat := some "c1", timer := none, sigs := [] })
    (some "c2")

/-- Claim C4, counterexample: with the idle timer pending for the
selected chat `c1`, switching the selection to `c2` emits no
typing-stop (the trace still holds only the original typing-start) and
does not disarm the timer (it is still armed for `c1`). -/
theorem switchAway_keeps_timer_armed :
    switchAwayState.timer = some (typingIdleMs, "c1") ∧
    switchAwayState.sigs = [(0, TypSig.start "c1")] :=
  ⟨rfl, rfl⟩

/-- Claim C4 as amended: switching the selection runs no code touching
the typing timer — the timer stays armed and nothing is emitted at
switch time; when the pending timer later expires it emits the
typing-stop for the chat id captured at arm time, i.e. for the
*deselected* conversation. -/
theorem switchChat_leaves_timer (s : TypingLocal) (c : Option String)
    (ft : Nat) (cid : String) :
    (switchChat s c).timer = s.timer ∧
    (switchChat s c).sigs = s.sigs ∧
    (s.timer = some (ft, cid) →
      flushTimer (switchChat s c) =
        { chat := c, timer := none, sigs := s.sigs ++ [(ft, TypSig.stop cid)] }) := by
  refine ⟨rfl, rfl, fun h => ?_⟩
  simp [switchChat, flushTimer, h]

/-- Witness for the amended C4: the timer armed for `c1` fires after
the switch to `c2` and emits the stop for `c1`. -/
theorem switchChat_leaves_timer_witness :
    flushTimer (switchChat
        { chat := some "c1", timer := some (2000, "c1"),
          sigs := [(0, TypSig.start "c1")] } (some "c2"))
      = { chat := some "c2", timer := none,
          sigs := [(0, TypSig.start "c1")] ++ [(2000, TypSig.stop "c1")] } :=
  (switchChat_leaves_timer
    { chat := some "c1", timer := some (2000, "c1"),
      sigs := [(0, TypSig.start "c1")] } (some "c2") 2000 "c1").2.2 rfl

/-! ## Claim C5 — typing auto-expiry -/

/-- `fireDueTimer` does not change the displayed chat. -/
theorem fireDueTimer_chat (now : Nat) (s : TypingLocal) :
    (fireDueTimer now s).chat = s.chat := by
  unfold fireDueTimer
  cases h : s.timer with
  | none => rfl
  | some p =>
      obtain ⟨ft, cid⟩ := p
      dsimp only
      split <;> rfl

/-- `handleTypingInput` does not change the displayed chat. -/
theorem handleTypingInput_chat (t : Nat) (s : TypingLocal) :
    (handleTypingInput t s).chat = s.chat := by
  unfold handleTypingInput
  cases h : s.chat <;> simp [h]

/-- After a run of content-changes ending at time `tL` in chat `cid`,
the timer is armed for `tL + 2000` capturing `cid`, and the trace ends
with the typing-start emitted at `tL`. -/
theorem runTypingInputs_ends_with_start (cid : String) (tL : Nat) :
    ∀ (ts : List Nat) (s : TypingLocal), s.chat = some cid →
      ∃ pre, runTypingInputs s (ts ++ [tL]) =
        { chat := some cid, timer := some (tL + typingIdleMs, cid),
          sigs := pre ++ [(tL, TypSig.start cid)] } := by
  intro ts
  induction ts with
  | nil =>
      intro s hs
      obtain ⟨ch, tm, sg⟩ := s
      dsimp only at hs
      subst hs
      cases tm with
      | none => exact ⟨sg, rfl⟩
      | some p =>
          obtain ⟨ft, c'⟩ := p
          by_cases hft : ft ≤ tL
          · exact ⟨sg ++ [(ft, TypSig.stop c')],
              by simp [runTypingInputs, handleTypingInput, fireDueTimer, hft]⟩
          · exact ⟨sg,
              by simp [runTypingInputs, handleTypingInput, fireDueTimer, hft]⟩
  | cons t ts ih =>
      intro s hs
      show ∃ pre, runTypingInputs (handleTypingInput t (fireDueTimer t s)) (ts ++ [tL]) = _
      apply ih
      rw [handleTypingInput_chat, fireDueTimer_chat]
      exact hs

/-- Claim C5 (confirmed): each local content-change at time `t` in the
active chat emits exactly one typing-start and re-arms the single idle
timer for `t + 2000`; and in any run of content-changes ending at `tL`
with no further input, the trace ends with the start emitted at `tL`,
the timer is armed for `tL + 2000` capturing the active chat, and
letting it expire appends exactly one typing-stop for that chat at time
`tL + 2000` — i.e. no later than the 2000 ms idle window after the last
content-change. -/
theorem typing_autoexpiry (cid : String) (ts : List Nat) (tL : Nat) :
    (∀ (t : Nat) (s : TypingLocal), s.chat = some cid →
      handleTypingInput t s =
        { s with timer := some (t + typingIdleMs, cid),
                 sigs := s.sigs ++ [(t, TypSig.start cid)] }) ∧
    (runTypingInputs { chat := some cid, timer := none, sigs := [] } (ts ++ [tL])).timer
      = some (tL + typingIdleMs, cid) ∧
    (runTypingInputs { chat := some cid, timer := none, sigs := [] }
        (ts ++ [tL])).sigs.getLast? = some (tL, TypSig.start cid) ∧
    flushTimer (runTypingInputs { chat := some cid, timer := none, sigs := [] }
        (ts ++ [tL]))
      = { chat := some cid, timer := none,
          sigs := (runTypingInputs { chat := some cid, timer := none, sigs := [] }
              (ts ++ [tL])).sigs ++ [(tL + typingIdleMs, TypSig.stop cid)] } := by
  obtain ⟨pre, h⟩ := runTypingInputs_ends_with_start cid tL ts
    { chat := some cid, timer := none, sigs := [] } rfl
  refine ⟨?_, ?_, ?_, ?_⟩
  · intro t s hs
    simp [handleTypingInput, hs]
  · rw [h]
  · rw [h]
    simp
  · rw [h]
    simp [flushTimer]

/-- Witness for C5: content-changes at times 0 and 3000 in chat `c1`;
the earlier timer fires in between, and after the last change the
flush emits the single stop at 5000 = 3000 + 2000. -/
theorem typing_autoexpiry_witness :
    handleTypingInput 7 { chat := some "c1", timer := none, sigs := [] }
      = { chat := some "c1", timer := some (7 + typingIdleMs, "c1"),
          sigs := [] ++ [(7, TypSig.start "c1")] } ∧
    (runTypingInputs { chat := some "c1", timer := none, sigs := [] }
        ([0] ++ [3000])).sigs.getLast? = some (3000, TypSig.start "c1") :=
  ⟨(typing_autoexpiry "c1" [0] 3000).1 7
      { chat := some "c1", timer := none, sigs := [] } rfl,
    (typing_autoexpiry "c1" [0] 3000).2.2.1⟩

/-! ## Claim C10 — remote typing set -/

/-- One `user_typing` update preserves the no-duplicates property of
`typingUsers`. -/
theorem handleUserTyping_nodup (chatId : String) (selfId : Option String)
    (prev : List String) (d : TypingEventData) (h : prev.Nodup) :
    (handleUserTyping chatId selfId prev d).Nodup := by
  unfold handleUserTyping
  repeat' split
  any_goals exact h
  · rename_i hmem
    simp [List.nodup_append, h, hmem]
  · exact h.filter _

/-- Any sequence of `user_typing` updates preserves the no-duplicates
property of `typingUsers`. -/
theorem foldl_handleUserTyping_nodup (chatId : String) (selfId : Option String) :
    ∀ (events : List TypingEventData) (prev : List String), prev.Nodup →
      (events.foldl (handleUserTyping chatId selfId) prev).Nodup := by
  intro events
  induction events with
  | nil => intro prev h; exact h
  | cons d rest ih =>
      intro prev h
      exact ih _ (handleUserTyping_nodup chatId selfId prev d h)

/-- Claim C10 (confirmed): starting from a duplicate-free typing list,
every sequence of `user_typing` events leaves it duplicate-free; an
`is_typing = true` event for a user already present leaves the list
unchanged; an `is_typing = false` event passing the handler's guards
(matching chat, not the current user) removes the user, and is a no-op
when the user is absent; and the selection-change reset yields the
duplicate-free empty list. -/
theorem remote_typing_no_duplicates (chatId : String) (selfId : Option String)
    (events : List TypingEventData) (prev : List String) (h : prev.Nodup) :
    (events.foldl (handleUserTyping chatId selfId) prev).Nodup ∧
    (∀ d : TypingEventData, d.is_typing = true → d.user_id ∈ prev →
      handleUserTyping chatId selfId prev d = prev) ∧
    (∀ d : TypingEventData, d.is_typing = false → d.chat_id = chatId →
      some d.user_id ≠ selfId →
      d.user_id ∉ handleUserTyping chatId selfId prev d) ∧
    (∀ d : TypingEventData, d.is_typing = false → d.user_id ∉ prev →
      handleUserTyping chatId selfId prev d = prev) ∧
    resetTypingOnChatChange.Nodup := by
  refine ⟨foldl_handleUserTyping_nodup chatId selfId events prev h, ?_, ?_, ?_,
    List.nodup_nil⟩
  · intro d ht hm
    simp [handleUserTyping, ht, hm]
  · intro d hf hc hs
    simp [handleUserTyping, hf, hc, hs, List.mem_filter]
  · intro d hf hm
    have hall : ∀ a ∈ prev, ¬a = d.user_id := fun a ha e => hm (e ▸ ha)
    simp [handleUserTyping, hf]
    exact fun _ _ => hall

/-- Witness for C10 at concrete inputs: two identical typing-start
events from `u2` yield the singleton list; a redundant start is a
no-op; a stop removes `u2`. -/
theorem remote_typing_no_duplicates_witness :
    (([⟨"c1", "u2", true⟩, ⟨"c1", "u2", true⟩] :
        List TypingEventData).foldl (handleUserTyping "c1" (some "me")) []).Nodup ∧
    handleUserTyping "c1" (some "me") ["u2"] ⟨"c1", "u2", true⟩ = ["u2"] ∧
    "u2" ∉ handleUserTyping "c1" (some "me") ["u2"] ⟨"c1", "u2", false⟩ :=
  ⟨(remote_typing_no_duplicates "c1" (some "me")
      [⟨"c1", "u2", true⟩, ⟨"c1", "u2", true⟩] [] (by decide)).1,
    (remote_typing_no_duplicates "c1" (some "me") [] ["u2"] (by decide)).2.1
      ⟨"c1", "u2", true⟩ rfl (by decide),
    (remote_typing_no_duplicates "c1" (some "me") [] ["u2"] (by decide)).2.2.1
      ⟨"c1", "u2", false⟩ rfl rfl (by decide)⟩

/-! ## Claim C3 — single subscription, leave-before-join -/

/-- The signal trace a sequence of selection changes emits, as a
function of the room joined beforehand (the closed form of the trace
`runSelects` accumulates). -/
def sigsOf : Option String → List String → List RoomSig
  | _, [] => []
  | cur, id :: ids =>
      if cur = some id then sigsOf cur ids
      else
        match cur with
        | some old => RoomSig.leave old :: RoomSig.join id :: sigsOf (some id) ids
        | none => RoomSig.join id :: sigsOf (some id) ids

/-- The room joined after a sequence of selection changes. -/
def joinedOf : Option String → List String → Option String
  | cur, [] => cur
  | _, id :: ids => joinedOf (some id) ids

/-- The room list matching a joined-room state: none joined ↔ the empty
list, a joined room ↔ exactly that singleton. -/
def accMatches (cur : Option String) (acc : List String) : Prop :=
  match cur with
  | none => acc = []
  | some o => acc = [o]

/-- `runSelects` computes `joinedOf` and appends exactly `sigsOf` to
the trace. -/
theorem runSelects_eq (ids : List String) :
    ∀ (cur : Option String) (sigs : List RoomSig),
      runSelects { joined := cur, sigs := sigs } ids =
        { joined := joinedOf cur ids, sigs := sigs ++ sigsOf cur ids } := by
  induction ids with
  | nil =>
      intro cur sigs
      simp [runSelects, sigsOf, joinedOf]
  | cons id ids ih =>
      intro cur sigs
      by_cases hc : cur = some id
      · subst hc
        show runSelects (selectRoom ⟨some id, sigs⟩ id) ids = _
        have hsel : selectRoom ⟨some id, sigs⟩ id = ⟨some id, sigs⟩ := by
          simp [selectRoom]
        rw [hsel, ih]
        simp [sigsOf, joinedOf]
      · cases cur with
        | none =>
            show runSelects (selectRoom ⟨none, sigs⟩ id) ids = _
            have hsel : selectRoom ⟨none, sigs⟩ id =
                ⟨some id, sigs ++ [RoomSig.join id]⟩ := by
              simp [selectRoom]
            rw [hsel, ih]
            simp [sigsOf, joinedOf]
        | some old =>
            have hne : old ≠ id := fun e => hc (by rw [e])
            show runSelects (selectRoom ⟨some old, sigs⟩ id) ids = _
            have hsel : selectRoom ⟨some old, sigs⟩ id =
                ⟨some id, sigs ++ [RoomSig.leave old, RoomSig.join id]⟩ := by
              simp [selectRoom, hne]
            rw [hsel, ih]
            simp [sigsOf, joinedOf, hne]

/-- The emitted trace is well-bracketed: every `join_chat` for a new
room is immediately preceded by the `leave_chat` of the previously
joined room. -/
theorem leaveBeforeJoin_sigsOf (ids : List String) :
    ∀ cur : Option String, leaveBeforeJoin cur (sigsOf cur ids) = true := by
  induction ids with
  | nil => intro cur; simp [sigsOf, leaveBeforeJoin]
  | cons id ids ih =>
      intro cur
      by_cases hc : cur = some id
      · subst hc
        simp only [sigsOf, if_pos rfl]
        exact ih (some id)
      · cases cur with
        | none =>
            simp only [sigsOf, if_neg hc]
            show leaveBeforeJoin (some id) (sigsOf (some id) ids) = true
            exact ih (some id)
        | some old =>
            simp only [sigsOf, if_neg hc]
            show (decide (old = old) && leaveBeforeJoin (some id)
              (sigsOf (some id) ids)) = true
            simp [ih (some id)]

/-- Along every prefix of the emitted trace, the client is joined to at
most one room. -/
theorem sigsOf_rooms_bound (ids : List String) :
    ∀ (cur : Option String) (acc : List String), accMatches cur acc →
      ∀ pre : List RoomSig, pre <+: sigsOf cur ids →
        (List.foldl roomStep acc pre).length ≤ 1 := by
  induction ids with
  | nil =>
      intro cur acc hm pre hpre
      have hp : pre = [] := by
        simpa [sigsOf] using hpre
      subst hp
      cases cur with
      | none =>
          have hacc : acc = [] := hm
          subst hacc
          simp
      | some o =>
          have hacc : acc = [o] := hm
          subst hacc
          simp
  | cons id ids ih =>
      intro cur acc hm pre hpre
      by_cases hc : cur = some id
      · subst hc
        rw [show sigsOf (some id) (id :: ids) = sigsOf (some id) ids from
          by simp [sigsOf]] at hpre
        exact ih (some id) acc hm pre hpre
      · cases cur with
        | none =>
            have hacc : acc = [] := hm
            subst hacc
            rw [show sigsOf none (id :: ids) =
              RoomSig.join id :: sigsOf (some id) ids from by simp [sigsOf]] at hpre
            cases pre with
            | nil => simp
            | cons x pre' =>
                rw [List.cons_prefix_cons] at hpre
                obtain ⟨hx, hpre'⟩ := hpre
                subst hx
                have hstep : roomStep [] (RoomSig.join id) = [id] := by
                  simp [roomStep]
                rw [List.foldl_cons, hstep]
                exact ih (some id) [id] rfl pre' hpre'
        | some old =>
            have hacc : acc = [old] := hm
            subst hacc
            rw [show sigsOf (some old) (id :: ids) =
              RoomSig.leave old :: RoomSig.join id :: sigsOf (some id) ids from
              by simp [sigsOf, hc]] at hpre
            cases pre with
            | nil => simp
            | cons x pre1 =>
                rw [List.cons_prefix_cons] at hpre
                obtain ⟨hx, hpre1⟩ := hpre
                subst hx
                have h1 : roomStep [old] (RoomSig.leave old) = [] := by
                  simp [roomStep]
                rw [List.foldl_cons, h1]
                cases pre1 with
                | nil => simp
                | cons y pre2 =>
                    rw [List.cons_prefix_cons] at hpre1
                    obtain ⟨hy, hpre2⟩ := hpre1
                    subst hy
                    have h2 : roomStep [] (RoomSig.join id) = [id] := by
                      simp [roomStep]
                    rw [List.foldl_cons, h2]
                    exact ih (some id) [id] rfl pre2 hpre2

/-- After the full emitted trace the joined-room set is exactly the
room `runSelects` records as joined. -/
theorem sigsOf_rooms_final (ids : List String) :
    ∀ (cur : Option String) (acc : List String), accMatches cur acc →
      accMatches (joinedOf cur ids) (List.foldl roomStep acc (sigsOf cur ids)) := by
  induction ids with
  | nil => intro cur acc hm; exact hm
  | cons id ids ih =>
      intro cur acc hm
      by_cases hc : cur = some id
      · subst hc
        rw [show sigsOf (some id) (id :: ids) = sigsOf (some id) ids from
          by simp [sigsOf]]
        rw [show joinedOf (some id) (id :: ids) = joinedOf (some id) ids from rfl]
        exact ih (some id) acc hm
      · cases cur with
        | none =>
            have hacc : acc = [] := hm
            subst hacc
            rw [show sigsOf none (id :: ids) =
              RoomSig.join id :: sigsOf (some id) ids from by simp [sigsOf]]
            rw [show joinedOf none (id :: ids) = joinedOf (some id) ids from rfl]
            have hstep : roomStep [] (RoomSig.join id) = [id] := by
              simp [roomStep]
            rw [List.foldl_cons, hstep]
            exact ih (some id) [id] rfl
        | some old =>
            have hacc : acc = [old] := hm
            subst hacc
            rw [show sigsOf (some old) (id :: ids) =
              RoomSig.leave old :: RoomSig.join id :: sigsOf (some id) ids from
              by simp [sigsOf, hc]]
            rw [show joinedOf (some old) (id :: ids) = joinedOf (some id) ids from rfl]
            have h1 : roomStep [old] (RoomSig.leave old) = [] := by
              simp [roomStep]
            have h2 : roomStep [] (RoomSig.join id) = [id] := by
              simp [roomStep]
            rw [List.foldl_cons, h1, List.foldl_cons, h2]
            exact ih (some id) [id] rfl

/-- Claim C3 (confirmed): for every sequence of selection changes from
the initial unjoined state, the emitted trace is well-bracketed — every
`join_chat` for a new conversation is immediately preceded by the
`leave_chat` of the previously joined one, the leave coming first —
and along every prefix of the trace the client is joined to at most one
room; after the whole trace the joined set is exactly the recorded
current room. -/
theorem single_subscription (ids : List String) :
    leaveBeforeJoin none (runSelects { joined := none, sigs := [] } ids).sigs
      = true ∧
    (∀ pre : List RoomSig,
      pre <+: (runSelects { joined := none, sigs := [] } ids).sigs →
        (roomsAfter pre).length ≤ 1) ∧
    roomsAfter (runSelects { joined := none, sigs := [] } ids).sigs =
      (match (runSelects { joined := none, sigs := [] } ids).joined with
        | some r => [r]
        | none => []) := by
  rw [runSelects_eq ids none []]
  refine ⟨?_, ?_, ?_⟩
  · simpa using leaveBeforeJoin_sigsOf ids none
  · intro pre hpre
    simp only [List.nil_append] at hpre
    exact sigsOf_rooms_bound ids none [] rfl pre hpre
  · have hfin := sigsOf_rooms_final ids none [] rfl
    simp only [roomsAfter, List.nil_append]
    cases hj : joinedOf none ids with
    | none =>
        rw [hj] at hfin
        exact hfin
    | some r =>
        rw [hj] at hfin
        exact hfin

/-- Witness for C3: selecting `c1` then `c2` gives the trace
join(c1), leave(c1), join(c2); its one-element prefix keeps the joined
set at one room. -/
theorem single_subscription_witness :
    leaveBeforeJoin none
      (runSelects { joined := none, sigs := [] } ["c1", "c2"]).sigs = true ∧
    (roomsAfter [RoomSig.join "c1"]).length ≤ 1 :=
  ⟨(single_subscription ["c1", "c2"]).1,
    (single_subscription ["c1", "c2"]).2.1 [RoomSig.join "c1"] (by decide)⟩

end ChatSphere
